import Mathlib

/-!
Verification development for the cu-cat table-vectorization engine.

The repository ships the test suite of its `TableVectorizer`
(`cu_cat/tests/test_table_vectorizer.py`); the vectorizer implementation
itself is not part of the sources at hand, so the data model and the
operations below are modelled from the specification (spec.md §3, §4, §6,
§7), using the test suite's concrete tables and expected outcomes as the
reference scenarios.  The embedding is executable throughout: columns are
lists of cells, rational cell payloads use an explicit numerator/denominator
pair so that every scenario evaluates inside the kernel.
-/

namespace CuCat

/-- Modelled from the spec: exact rational cell payload (numerator over
denominator).  The spec treats numeric values as integers or floating-point
numbers; an explicit pair keeps every operation kernel-computable.  Values
are not kept normalized; `isWhole` tests divisibility. -/
structure Q where
  num : Int
  den : Int
deriving DecidableEq

/-- Integer embedded as a rational. -/
def Q.ofInt (n : Int) : Q := ⟨n, 1⟩

/-- Sum of two rationals by cross multiplication. -/
def Q.add (a b : Q) : Q := ⟨a.num * b.den + b.num * a.den, a.den * b.den⟩

/-- Difference of two rationals by cross multiplication. -/
def Q.sub (a b : Q) : Q := ⟨a.num * b.den - b.num * a.den, a.den * b.den⟩

/-- Division of a rational by a natural number (used for means). -/
def Q.divNat (a : Q) (n : Nat) : Q := ⟨a.num, a.den * (n : Int)⟩

/-- A rational is whole when its denominator divides its numerator. -/
def Q.isWhole (a : Q) : Bool := decide (a.den ≠ 0 ∧ a.num % a.den = 0)

/-- Modelled from the spec: storage dtypes observable on columns
(spec.md §4.1 and the dtype expectations of `test_auto_cast`). -/
inductive Dtype where
  | int64
  | float64
  | object
  | datetime64
deriving DecidableEq

/-- Modelled from the spec: one cell of a column.  The spec recognizes
several distinct missing-value sentinels (null, not-a-number, None, empty)
that the Type Inspector later normalizes to a single marker (spec.md §3,
§4.1); non-missing payloads are numbers, opaque strings, or native
timestamps. -/
inductive Cell where
  | null
  | nan
  | noneMark
  | emptyMark
  | num (q : Q)
  | str (s : String)
  | timestamp (t : Int)
deriving DecidableEq

/-- Recognizes every missing-value sentinel. -/
def Cell.isMissing : Cell → Bool
  | .null => true
  | .nan => true
  | .noneMark => true
  | .emptyMark => true
  | _ => false

/-- Modelled from the spec: a named column of raw values (spec.md §3). -/
structure Column where
  name : String
  dtype : Dtype
  values : List Cell
deriving DecidableEq

/-- A table is an ordered list of named columns (spec.md §6). -/
abbrev Table := List Column

/-! ### Numeric string parsing (Type Inspector, spec.md §4.1) -/

/-- Parses a non-empty all-digit character list into a natural number. -/
def parseDigits (cs : List Char) : Option Nat :=
  if !cs.isEmpty && cs.all Char.isDigit then
    some (cs.foldl (fun n c => 10 * n + (c.toNat - 48)) 0)
  else none

/-- Splits a character list on a separator character. -/
def splitOnChar (sep : Char) : List Char → List (List Char)
  | [] => [[]]
  | c :: rest =>
    if c = sep then [] :: splitOnChar sep rest
    else
      match splitOnChar sep rest with
      | [] => [[c]]
      | g :: gs => (c :: g) :: gs

/-- Parses an unsigned decimal literal: digits with at most one point. -/
def parseUnsigned (cs : List Char) : Option Q :=
  match splitOnChar '.' cs with
  | [ds] => (parseDigits ds).map (fun n => Q.ofInt (n : Int))
  | [ds, fs] =>
    match parseDigits ds, parseDigits fs with
    | some i, some f =>
      some ⟨(i : Int) * ((10 ^ fs.length : Nat) : Int) + (f : Int), ((10 ^ fs.length : Nat) : Int)⟩
    | _, _ => none
  | _ => none

/-- Modelled from the spec: numeric detection parses a value as an integer
or floating-point literal, with an optional leading minus sign
(spec.md §4.1). -/
def parseNumStr (s : String) : Option Q :=
  match s.data with
  | [] => none
  | c :: rest =>
    if c = '-' then (parseUnsigned rest).map (fun q => ⟨-q.num, q.den⟩)
    else parseUnsigned (c :: rest)

/-- Numeric view of a cell: numeric payloads directly, strings through the
numeric literal parse; anything else does not parse. -/
def Cell.asNum : Cell → Option Q
  | .num q => some q
  | .str s => parseNumStr s
  | _ => none

/-! ### Datetime parsing (Type Inspector, spec.md §4.1) -/

/-- Packs a calendar date into a single integer timestamp code. -/
def encodeDate (y m d : Nat) : Int := ((y * 10000 + m * 100 + d : Nat) : Int)

/-- Validates and encodes a year/month/day split into digit groups; the
year group must have four digits, month and day must be in range. -/
def parseYMD (ys ms ds : List Char) : Option Int :=
  match parseDigits ys, parseDigits ms, parseDigits ds with
  | some y, some m, some d =>
    if ys.length = 4 ∧ 1 ≤ m ∧ m ≤ 12 ∧ 1 ≤ d ∧ d ≤ 31 then some (encodeDate y m d)
    else none
  | _, _, _ => none

/-- Validates and encodes an hour/minute/second split into digit groups. -/
def parseHMS (cs : List Char) : Option Int :=
  match splitOnChar ':' cs with
  | [hs, ms, ss] =>
    match parseDigits hs, parseDigits ms, parseDigits ss with
    | some h, some mi, some s =>
      if h ≤ 23 ∧ mi ≤ 59 ∧ s ≤ 59 then some ((h * 10000 + mi * 100 + s : Nat) : Int)
      else none
    | _, _, _ => none
  | _ => none

/-- Modelled from the spec: the prioritized datetime format families —
ISO-like year-month-day with dash separators, day-month-year with dash
separators, year-month-day with slash separators, and the latter with an
appended time-of-day component (spec.md §4.1). -/
inductive DtFormat where
  | ymdDash
  | dmyDash
  | ymdSlash
  | ymdSlashTime
deriving DecidableEq

/-- Priority order of the datetime format families (spec.md §4.1). -/
def dtFormats : List DtFormat := [.ymdDash, .dmyDash, .ymdSlash, .ymdSlashTime]

/-- Parses one string under one datetime format family. -/
def parseDateWith : DtFormat → String → Option Int
  | .ymdDash, s =>
    match splitOnChar '-' s.data with
    | [ys, ms, ds] => parseYMD ys ms ds
    | _ => none
  | .dmyDash, s =>
    match splitOnChar '-' s.data with
    | [ds, ms, ys] => parseYMD ys ms ds
    | _ => none
  | .ymdSlash, s =>
    match splitOnChar '/' s.data with
    | [ys, ms, ds] => parseYMD ys ms ds
    | _ => none
  | .ymdSlashTime, s =>
    match splitOnChar ' ' s.data with
    | [dp, tp] =>
      match
        (match splitOnChar '/' dp with
         | [ys, ms, ds] => parseYMD ys ms ds
         | _ => none) with
      | some d =>
        match parseHMS tp with
        | some t => some (d * 1000000 + t)
        | none => none
      | none => none
    | _ => none

/-- A cell is compatible with a format family when it is missing or a
string that parses under that family. -/
def cellParses (f : DtFormat) (c : Cell) : Bool :=
  c.isMissing ||
    (match c with
     | .str s => (parseDateWith f s).isSome
     | _ => false)

/-- Modelled from the spec: format detection is performed once per column;
the first format family that parses the entire non-missing subset wins, and
a column with no non-missing values detects no format (spec.md §4.1). -/
def detectFormat (vs : List Cell) : Option DtFormat :=
  if vs.any (fun c => !c.isMissing) then dtFormats.find? (fun f => vs.all (cellParses f))
  else none

/-! ### Automatic type casting (Type Inspector, spec.md §4.1) -/

/-- True when every non-missing value of the column parses as a number. -/
def colAllNum (vs : List Cell) : Bool :=
  vs.all (fun c => c.isMissing || (Cell.asNum c).isSome)

/-- True when the column contains at least one missing value. -/
def colAnyMissing (vs : List Cell) : Bool := vs.any Cell.isMissing

/-- True when every non-missing value is a whole number. -/
def colAllWhole (vs : List Cell) : Bool :=
  vs.all (fun c =>
    c.isMissing ||
      (match Cell.asNum c with
       | some q => q.isWhole
       | none => false))

/-- Modelled from the spec: the numeric subtype is floating-point as soon
as any missing value is present (integers cannot represent missing values);
otherwise integer when every value is whole (spec.md §4.1). -/
def numericDtype (vs : List Cell) : Dtype :=
  if colAnyMissing vs then .float64
  else if colAllWhole vs then .int64
  else .float64

/-- Casts one cell to its numeric payload, normalizing missing markers. -/
def castNumCell (c : Cell) : Cell :=
  if c.isMissing then .nan else .num ((Cell.asNum c).getD ⟨0, 1⟩)

/-- Casts one cell to a timestamp under a detected format family,
normalizing missing markers. -/
def castDtCell (f : DtFormat) (c : Cell) : Cell :=
  if c.isMissing then .nan
  else
    match c with
    | .str s =>
      match parseDateWith f s with
      | some t => .timestamp t
      | none => c
    | _ => c

/-- Normalizes every missing-value sentinel to one canonical marker
(spec.md §4.1, categorical fallback). -/
def normMissCell (c : Cell) : Cell := if c.isMissing then .nan else c

/-- Modelled from the spec: per-column automatic type detection and cast.
A column already holding native timestamps is accepted as datetime without
re-parsing; otherwise numeric detection is attempted first, then datetime
format detection, and any remaining column degrades to categorical-string
— type inference never raises for bad data (spec.md §4.1). -/
def autoCastColumn (col : Column) : Column :=
  if col.dtype = .datetime64 then col
  else if colAllNum col.values then
    ⟨col.name, numericDtype col.values, col.values.map castNumCell⟩
  else
    match detectFormat col.values with
    | some f => ⟨col.name, .datetime64, col.values.map (castDtCell f)⟩
    | none => ⟨col.name, .object, col.values.map normMissCell⟩

/-- Modelled from the spec: `_auto_cast` applied to a whole table; the step
never reorders or renames columns (spec.md §4.1). -/
def autoCast (T : Table) : Table := T.map autoCastColumn

/-! ### Cardinality Classifier (spec.md §4.2) -/

/-- Distinct non-missing values of a column's contents. -/
def distinctsNM (vs : List Cell) : List Cell :=
  (vs.filter (fun c => !c.isMissing)).dedup

/-- Modelled from the spec: cardinality is the count of distinct
non-missing values (spec.md §4.2, glossary). -/
def cardinality (col : Column) : Nat := (distinctsNM col.values).length

/-! ### Delegated transformers (spec.md §4.3, §6)

The individual encoders are external collaborators (spec.md §1); they are
modelled here only through the narrow interface the router relies on:
`fit` on assigned columns, `transform` to a list of output feature columns,
and a feature-naming contract (one name per output column; expansion
encoders produce `"{column}_{value}"` names with values sorted). -/

/-- String rendering of a cell, used by expansion encoders to treat values
as opaque strings (spec.md §4.1, categorical fallback). -/
def Cell.render : Cell → String
  | .str s => s
  | .num q => if q.den = 1 then toString q.num else toString q.num ++ "/" ++ toString q.den
  | .timestamp t => toString t
  | _ => ""

/-- Boolean lexicographic order on character lists via code points. -/
def charListLt : List Char → List Char → Bool
  | [], [] => false
  | [], _ :: _ => true
  | _ :: _, [] => false
  | a :: as, b :: bs =>
    if a.toNat < b.toNat then true
    else if b.toNat < a.toNat then false
    else charListLt as bs

/-- Inserts a string into a sorted list of strings. -/
def insertStr (x : String) : List String → List String
  | [] => [x]
  | y :: ys => if charListLt x.data y.data then x :: y :: ys else y :: insertStr x ys

/-- Insertion sort on strings under the code-point order. -/
def sortStrings : List String → List String
  | [] => []
  | x :: xs => insertStr x (sortStrings xs)

/-- Distinct rendered non-missing values of a column's contents. -/
def distinctRendered (vs : List Cell) : List String :=
  ((vs.filter (fun c => !c.isMissing)).map Cell.render).dedup

/-- Modelled from the spec: the transformer directives and instances a
group can be bound to — a literal passthrough, a skip directive
(passthrough bypassing imputation), a one-hot-style expansion encoder, a
scalar numeric transformer, and the high-cardinality embedding encoder
with its output dimensionality (spec.md §4.3, §6). -/
inductive TransformerChoice where
  | passthrough
  | skip
  | oneHot
  | scaler
  | gapEncoder (nComponents : Nat)
deriving DecidableEq

/-- Fitted state of a delegated transformer, created at fit time and
immutable afterward (spec.md §3, TransformerBinding). -/
inductive FittedTrans where
  | passthrough (names : List String)
  | skip (names : List String)
  | oneHot (cats : List (String × List String))
  | scaler (means : List (String × Q))
  | gap (k : Nat) (cats : List (String × List String))
deriving DecidableEq

/-- One-hot fit: per column, the sorted distinct observed values. -/
def fitOneHot (cols : List Column) : List (String × List String) :=
  cols.map (fun c => (c.name, sortStrings (distinctRendered c.values)))

/-- One-hot transform of one column: one indicator output column per
observed distinct value. -/
def oneHotCols (cats : List String) (vals : List Cell) : List (List Cell) :=
  cats.map (fun v =>
    vals.map (fun c =>
      if !c.isMissing && Cell.render c = v then Cell.num ⟨1, 1⟩ else Cell.num ⟨0, 1⟩))

/-- Mean of the numeric values of a column (scalar transformer fit). -/
def meanOf (vs : List Cell) : Q :=
  let ns := vs.filterMap Cell.asNum
  if ns.isEmpty then ⟨0, 1⟩ else Q.divNat (ns.foldl Q.add ⟨0, 1⟩) ns.length

/-- Scalar transformer fit: one mean per assigned column. -/
def fitScaler (cols : List Column) : List (String × Q) :=
  cols.map (fun c => (c.name, meanOf c.values))

/-- Embedding-encoder fit: per column, the distinct observed values. -/
def fitGap (cols : List Column) : List (String × List String) :=
  cols.map (fun c => (c.name, distinctRendered c.values))

/-- Embedding-encoder transform of one column: a fixed number of output
components per input column. -/
def gapCols (k : Nat) (cats : List String) (vals : List Cell) : List (List Cell) :=
  (List.range k).map (fun j =>
    vals.map (fun c =>
      if !c.isMissing && cats[j]? = some (Cell.render c) then Cell.num ⟨1, 1⟩
      else Cell.num ⟨0, 1⟩))

/-- Fits one delegated transformer on its assigned columns (spec.md §6). -/
def tFit : TransformerChoice → List Column → FittedTrans
  | .passthrough, cols => .passthrough (cols.map Column.name)
  | .skip, cols => .skip (cols.map Column.name)
  | .oneHot, cols => .oneHot (fitOneHot cols)
  | .scaler, cols => .scaler (fitScaler cols)
  | .gapEncoder k, cols => .gap k (fitGap cols)

/-- Applies a fitted delegated transformer to columns, producing the list
of output feature columns (spec.md §6). -/
def tTransform : FittedTrans → List Column → List (List Cell)
  | .passthrough _, cols => cols.map Column.values
  | .skip _, cols => cols.map Column.values
  | .oneHot cats, cols =>
    ((cats.zip cols).map (fun p => oneHotCols p.1.2 p.2.values)).flatten
  | .scaler means, cols =>
    (means.zip cols).map (fun p =>
      p.2.values.map (fun c => Cell.num (Q.sub ((Cell.asNum c).getD ⟨0, 1⟩) p.1.2)))
  | .gap k cats, cols =>
    ((cats.zip cols).map (fun p => gapCols k p.1.2 p.2.values)).flatten

/-- Feature names of a fitted delegated transformer, one per output column
(spec.md §4.3, §6). -/
def tFeatureNames : FittedTrans → List String
  | .passthrough ns => ns
  | .skip ns => ns
  | .oneHot cats => (cats.map (fun p => p.2.map (fun v => p.1 ++ "_" ++ v))).flatten
  | .scaler means => means.map Prod.fst
  | .gap k cats =>
    (cats.map (fun p => (List.range k).map (fun j => p.1 ++ "_" ++ toString j))).flatten

/-! ### Configuration and routing (spec.md §4.2, §4.3, §6) -/

/-- Modelled from the spec: the recognized configuration options of the
Vectorizer Facade (spec.md §6).  Per-group transformers are either a
transformer choice or absent (absent groups leave their columns unclaimed);
defaults follow the test suite's default scenarios: a cardinality threshold
higher than every test column's cardinality, no numerical transformer, a
one-hot low-cardinality encoder and an embedding high-cardinality
encoder. -/
structure Config where
  cardinality_threshold : Nat := 40
  numerical_transformer : Option TransformerChoice := none
  datetime_transformer : Option TransformerChoice := some .passthrough
  low_card_cat_transformer : Option TransformerChoice := some .oneHot
  high_card_cat_transformer : Option TransformerChoice := some (.gapEncoder 30)
  auto_cast : Bool := true
  impute_missing : Bool := true
  remainder : String := "drop"
deriving DecidableEq

/-- The default configuration. -/
def defaultConfig : Config := {}

/-- Columns detected as numeric by the Type Inspector. -/
def numericColumns (T : Table) : List Column :=
  T.filter (fun c => decide (c.dtype = Dtype.int64 ∨ c.dtype = Dtype.float64))

/-- Columns detected as datetime by the Type Inspector. -/
def datetimeColumns (T : Table) : List Column :=
  T.filter (fun c => decide (c.dtype = Dtype.datetime64))

/-- Modelled from the spec: categorical-string columns whose distinct
non-missing count is at most the threshold (inclusive boundary,
spec.md §4.2). -/
def lowCardColumns (thr : Nat) (T : Table) : List Column :=
  T.filter (fun c => decide (c.dtype = Dtype.object ∧ cardinality c ≤ thr))

/-- Modelled from the spec: categorical-string columns whose distinct
non-missing count exceeds the threshold (spec.md §4.2). -/
def highCardColumns (thr : Nat) (T : Table) : List Column :=
  T.filter (fun c => decide (c.dtype = Dtype.object ∧ thr < cardinality c))

/-- Modelled from the spec: the fixed, deterministic group-definition
order — numeric, datetime, low-cardinality categorical, high-cardinality
categorical — with each group's configured transformer option
(spec.md §4.3). -/
def groupSpecs (cfg : Config) (T : Table) :
    List (String × Option TransformerChoice × List Column) :=
  [("numeric", cfg.numerical_transformer, numericColumns T),
   ("datetime", cfg.datetime_transformer, datetimeColumns T),
   ("low_card_cat", cfg.low_card_cat_transformer, lowCardColumns cfg.cardinality_threshold T),
   ("high_card_cat", cfg.high_card_cat_transformer, highCardColumns cfg.cardinality_threshold T)]

/-- A group becomes active when a transformer is configured for it and it
has at least one assigned column (empty groups are skipped entirely,
spec.md §4.3). -/
def activateGroup (g : String × Option TransformerChoice × List Column) :
    Option (String × TransformerChoice × List Column) :=
  match g.2.1 with
  | some ch => if g.2.2.isEmpty then none else some (g.1, ch, g.2.2)
  | none => none

/-- The active groups of a table, in group-definition order. -/
def activeGroups (cfg : Config) (T : Table) :
    List (String × TransformerChoice × List Column) :=
  (groupSpecs cfg T).filterMap activateGroup

/-! ### Imputation (spec.md §4.3, §6) -/

/-- Number of occurrences of a cell in a list of values. -/
def countCell (vs : List Cell) (c : Cell) : Nat :=
  (vs.filter (fun x => decide (x = c))).length

/-- Most frequent non-missing value of a column, when one exists. -/
def modeCell (vs : List Cell) : Option Cell :=
  (distinctsNM vs).foldl
    (fun best c =>
      match best with
      | none => some c
      | some b => if countCell vs b < countCell vs c then some c else some b)
    none

/-- Replaces every missing value of a column by its most frequent
non-missing value. -/
def imputeColumn (col : Column) : Column :=
  match modeCell col.values with
  | some m => ⟨col.name, col.dtype, col.values.map (fun c => if c.isMissing then m else c)⟩
  | none => col

/-- Modelled from the spec: missing-value imputation applied to a group's
columns unless imputation is disabled or the group is bound to the "skip"
directive, which bypasses imputation for that group (spec.md §4.3, §6). -/
def prepare (cfg : Config) (ch : TransformerChoice) (cols : List Column) : List Column :=
  if cfg.impute_missing && !(decide (ch = TransformerChoice.skip)) then cols.map imputeColumn
  else cols

/-! ### Vectorizer Facade (spec.md §3, §4.4, §6, §7) -/

/-- Modelled from the spec: a TransformerBinding — group name, bound
transformer, assigned column names, and the fitted transformer state
(spec.md §3). -/
structure Binding where
  group : String
  choice : TransformerChoice
  colNames : List String
  fitted : FittedTrans
deriving DecidableEq

/-- Modelled from the spec: the FittedState retained between `fit` and
`transform` — the ordered binding list plus the unclaimed (remainder)
column names (spec.md §3). -/
structure FittedState where
  bindings : List Binding
  remCols : List String
deriving DecidableEq

/-- Applies the Type Inspector's cast when `auto_cast` is enabled. -/
def castTable (cfg : Config) (X : Table) : Table :=
  if cfg.auto_cast then autoCast X else X

/-- Builds the TransformerBinding of one active group. -/
def mkBinding (cfg : Config) (x : String × TransformerChoice × List Column) : Binding :=
  ⟨x.1, x.2.1, x.2.2.map Column.name, tFit x.2.1 (prepare cfg x.2.1 x.2.2)⟩

/-- The binding list produced by fitting on an already-cast table. -/
def fitBindings (cfg : Config) (T : Table) : List Binding :=
  (activeGroups cfg T).map (mkBinding cfg)

/-- Column names claimed by a binding list. -/
def claimedNames (bs : List Binding) : List String :=
  (bs.map Binding.colNames).flatten

/-- Remainder: the input columns not claimed by any group, in original
order (spec.md §4.3, glossary). -/
def remainderNames (T : Table) (bs : List Binding) : List String :=
  (T.filter (fun c => !(claimedNames bs).contains c.name)).map Column.name

/-- Modelled from the spec: `fit` derives the groups afresh and replaces
the binding list wholesale (spec.md §3, lifecycle). -/
def fitState (cfg : Config) (X : Table) : FittedState :=
  ⟨fitBindings cfg (castTable cfg X),
   remainderNames (castTable cfg X) (fitBindings cfg (castTable cfg X))⟩

/-- Selects the columns of a table bearing the given names, in table
order. -/
def selectCols (T : Table) (names : List String) : Table :=
  T.filter (fun c => names.contains c.name)

/-- Transform step of one binding: select its assigned columns by name,
prepare them, and apply the fitted transformer. -/
def bindingTransform (cfg : Config) (T : Table) (b : Binding) : List (List Cell) :=
  tTransform b.fitted (prepare cfg b.choice (selectCols T b.colNames))

/-- Modelled from the spec: `transform` with a fitted state — per-group
outputs concatenated in group-definition order, followed by the remainder
columns when the remainder policy is "passthrough" (spec.md §4.3). -/
def transformWith (cfg : Config) (st : FittedState) (Y : Table) : List (List Cell) :=
  ((st.bindings.map (bindingTransform cfg (castTable cfg Y))).flatten) ++
    (if cfg.remainder = "passthrough"
     then (selectCols (castTable cfg Y) st.remCols).map Column.values
     else [])

/-- Fit-and-transform of one active group in a single pass, without
re-selecting columns by name. -/
def groupFitTransform (cfg : Config) (x : String × TransformerChoice × List Column) :
    List (List Cell) :=
  tTransform (tFit x.2.1 (prepare cfg x.2.1 x.2.2)) (prepare cfg x.2.1 x.2.2)

/-- Modelled from the spec: `fit_transform` — one routing pass that fits
every group and transforms its columns directly, producing the fitted
state and the combined feature matrix together (spec.md §4.4). -/
def fitTransformRaw (cfg : Config) (X : Table) : FittedState × List (List Cell) :=
  (fitState cfg X,
    ((activeGroups cfg (castTable cfg X)).map (groupFitTransform cfg)).flatten ++
      (if cfg.remainder = "passthrough"
       then
         (selectCols (castTable cfg X)
             (remainderNames (castTable cfg X) (fitBindings cfg (castTable cfg X)))).map
           Column.values
       else []))

/-- Modelled from the spec: the error taxonomy entry raised by
`transform`, `get_feature_names` and `transformers` access before a
successful `fit` (spec.md §7). -/
inductive VError where
  | notFitted
deriving DecidableEq

/-- Modelled from the spec: the Vectorizer Facade — a configuration plus
the optional FittedState; the facade is `unfitted` until a successful fit
(spec.md §4.4). -/
structure TableVectorizer where
  config : Config
  fitted : Option FittedState
deriving DecidableEq

/-- A freshly constructed, unfitted vectorizer. -/
def TableVectorizer.make (cfg : Config) : TableVectorizer := ⟨cfg, none⟩

/-- Modelled from the spec: `fit` — discards any prior bindings and
installs a fresh fitted state (spec.md §4.4). -/
def TableVectorizer.fit (tv : TableVectorizer) (X : Table) : TableVectorizer :=
  ⟨tv.config, some (fitState tv.config X)⟩

/-- Modelled from the spec: `transform` fails with the not-fitted error in
the unfitted state and otherwise applies the retained bindings
(spec.md §4.4, §7). -/
def TableVectorizer.transform (tv : TableVectorizer) (Y : Table) :
    Except VError (List (List Cell)) :=
  match tv.fitted with
  | none => Except.error VError.notFitted
  | some st => Except.ok (transformWith tv.config st Y)

/-- Modelled from the spec: `fit_transform` — fits and produces the
combined matrix in one pass (spec.md §4.4). -/
def TableVectorizer.fitTransform (tv : TableVectorizer) (X : Table) :
    TableVectorizer × List (List Cell) :=
  ((⟨tv.config, some (fitTransformRaw tv.config X).1⟩ : TableVectorizer),
    (fitTransformRaw tv.config X).2)

/-- Feature names of a fitted state: group-definition order, then the
remainder columns when passed through (spec.md §4.3, §6). -/
def stFeatureNames (cfg : Config) (st : FittedState) : List String :=
  (st.bindings.map (fun b => tFeatureNames b.fitted)).flatten ++
    (if cfg.remainder = "passthrough" then st.remCols else [])

/-- Modelled from the spec: `get_feature_names`, valid only after fitting
(spec.md §6, §7). -/
def TableVectorizer.getFeatureNames (tv : TableVectorizer) : Except VError (List String) :=
  match tv.fitted with
  | none => Except.error VError.notFitted
  | some st => Except.ok (stFeatureNames tv.config st)

/-- Modelled from the spec: the read-only `transformers` attribute —
ordered (group-name, transformer, assigned-column-names) triples
reflecting the fit-time decisions (spec.md §6). -/
def TableVectorizer.transformers (tv : TableVectorizer) :
    Except VError (List (String × TransformerChoice × List String)) :=
  match tv.fitted with
  | none => Except.error VError.notFitted
  | some st => Except.ok (st.bindings.map (fun b => (b.group, b.choice, b.colNames)))

/-! ### Concrete scenario tables (from `test_table_vectorizer.py`) -/

/-- Shorthand for an integer-valued numeric cell. -/
def iCell (n : Int) : Cell := Cell.num ⟨n, 1⟩

/-- Shorthand for a string cell. -/
def sCell (s : String) : Cell := Cell.str s

/-- The "int" column of `_get_clean_dataframe`: created with a
floating-point dtype but holding whole values only. -/
def intColumn : Column := ⟨"int", .float64, [iCell 15, iCell 56, iCell 63, iCell 12, iCell 44]⟩

/-- The "float" column of `_get_clean_dataframe`. -/
def floatColumn : Column :=
  ⟨"float", .float64,
    [Cell.num ⟨52, 10⟩, Cell.num ⟨24, 10⟩, Cell.num ⟨62, 10⟩, Cell.num ⟨1045, 100⟩,
     Cell.num ⟨90, 10⟩]⟩

/-- The "str1" column of `_get_clean_dataframe` (two distinct values). -/
def str1Column : Column :=
  ⟨"str1", .object,
    [sCell "public", sCell "private", sCell "private", sCell "private", sCell "public"]⟩

/-- The "str2" column of `_get_clean_dataframe` (five distinct values). -/
def str2Column : Column :=
  ⟨"str2", .object,
    [sCell "officer", sCell "manager", sCell "lawyer", sCell "chef", sCell "teacher"]⟩

/-- The "cat1" column of `_get_clean_dataframe` (two distinct values). -/
def cat1Column : Column :=
  ⟨"cat1", .object, [sCell "yes", sCell "yes", sCell "no", sCell "yes", sCell "no"]⟩

/-- The "cat2" column of `_get_clean_dataframe` (five distinct values). -/
def cat2Column : Column :=
  ⟨"cat2", .object, [sCell "20K+", sCell "40K+", sCell "60K+", sCell "30K+", sCell "50K+"]⟩

/-- The clean 6-column table of `_get_clean_dataframe`: two numeric
columns, two low-cardinality and two high-cardinality string columns. -/
def cleanDataFrame : Table :=
  [intColumn, floatColumn, str1Column, str2Column, cat1Column, cat2Column]

/-- The day-month-year string column of `_get_datetimes_dataframe`. -/
def dmyColumn : Column :=
  ⟨"dmy-", .object,
    [sCell "11-12-2029", sCell "02-12-2012", sCell "11-09-2012", sCell "13-02-2000",
     sCell "10-11-2001"]⟩

/-- The year-month-day slash-separated string column of
`_get_datetimes_dataframe`. -/
def ymdColumn : Column :=
  ⟨"ymd/", .object,
    [sCell "2014/12/31", sCell "2001/11/23", sCell "2005/02/12", sCell "1997/11/01",
     sCell "2011/05/05"]⟩

/-- The year-month-day-with-time string column of
`_get_datetimes_dataframe`. -/
def ymdHmsColumn : Column :=
  ⟨"ymd/_hms:", .object,
    [sCell "2014/12/31 00:31:01", sCell "2014/12/30 00:31:12", sCell "2014/12/31 23:31:23",
     sCell "2015/12/31 01:31:34", sCell "2014/01/31 00:32:45"]⟩

/-- A native-timestamp column like `pd_datetime` of
`_get_datetimes_dataframe`. -/
def nativeDtColumn : Column :=
  ⟨"pd_datetime", .datetime64,
    [Cell.timestamp 20190101, Cell.timestamp 20190102, Cell.timestamp 20190103,
     Cell.timestamp 20190104, Cell.timestamp 20190105]⟩

/-- The dirty "int" column of `_get_dirty_dataframe`: whole numbers with
one missing marker. -/
def dirtyIntColumn : Column :=
  ⟨"int", .int64, [iCell 15, iCell 56, Cell.null, iCell 12, iCell 44]⟩

/-- The configuration of the test's threshold-4 scenario: cardinality
threshold 4, a scalar numeric transformer, and a 2-component embedding
encoder for high-cardinality columns. -/
def cfgBase : Config :=
  { defaultConfig with
      cardinality_threshold := 4,
      numerical_transformer := some TransformerChoice.scaler,
      high_card_cat_transformer := some (TransformerChoice.gapEncoder 2) }

/-- The default configuration with the remainder passed through, as in
`test_get_feature_names_out`. -/
def cfgPassthrough : Config := { defaultConfig with remainder := "passthrough" }

/-- The feature names expected by `test_get_feature_names_out` for the
clean table under the passthrough remainder policy. -/
def expectedFeatureNames : List String :=
  ["str1_private", "str1_public", "str2_chef", "str2_lawyer", "str2_manager", "str2_officer",
   "str2_teacher", "cat1_no", "cat1_yes", "cat2_20K+", "cat2_30K+", "cat2_40K+", "cat2_50K+",
   "cat2_60K+", "int", "float"]

/-- Width of a transform result: the number of output feature columns, or
zero on error. -/
def exceptWidth (e : Except VError (List (List Cell))) : Nat :=
  match e with
  | Except.ok m => m.length
  | Except.error _ => 0

instance {ε α : Type} [DecidableEq ε] [DecidableEq α] : DecidableEq (Except ε α) := fun a b =>
  match a, b with
  | .error e, .error f => decidable_of_iff (e = f) (by simp)
  | .ok x, .ok y => decidable_of_iff (x = y) (by simp)
  | .error _, .ok _ => isFalse (by simp)
  | .ok _, .error _ => isFalse (by simp)

/-! ### Structural lemmas about the Type Inspector -/

lemma autoCastColumn_name (col : Column) : (autoCastColumn col).name = col.name := by
  unfold autoCastColumn
  split
  · rfl
  · split
    · rfl
    · split <;> rfl

lemma autoCast_names (T : Table) : (autoCast T).map Column.name = T.map Column.name := by
  unfold autoCast
  rw [List.map_map]
  exact List.map_congr_left (fun c _ => autoCastColumn_name c)

lemma castTable_names (cfg : Config) (X : Table) :
    (castTable cfg X).map Column.name = X.map Column.name := by
  unfold castTable
  split
  · exact autoCast_names X
  · rfl

/-- Claim C3: calling `transform` or `get_feature_names` (or accessing
`transformers`) on an unfitted TableVectorizer yields the not-fitted error
— no partial computation is performed, and in this purely functional
embedding the instance value is untouched by construction — while after a
successful `fit` the same calls succeed; being pure functions, repeated
calls return identical results. -/
theorem not_fitted_error_behavior (cfg : Config) (X Y : Table) :
    (TableVectorizer.make cfg).transform Y = Except.error VError.notFitted ∧
    (TableVectorizer.make cfg).getFeatureNames = Except.error VError.notFitted ∧
    (TableVectorizer.make cfg).transformers = Except.error VError.notFitted ∧
    (∃ m, ((TableVectorizer.make cfg).fit X).transform Y = Except.ok m) ∧
    (∃ ns, ((TableVectorizer.make cfg).fit X).getFeatureNames = Except.ok ns) :=
  ⟨rfl, rfl, rfl, ⟨_, rfl⟩, ⟨_, rfl⟩⟩

/-- Claim C4: on any table whose missing values use any mix of the
recognized markers, `_auto_cast` completes without raising — it preserves
the column list and names — and every originally-integer column containing
at least one missing value is cast to float64. -/
theorem auto_cast_missing_handling (T : Table) (col : Column)
    (hmem : col ∈ T)
    (hdtype : col.dtype = Dtype.int64)
    (hcells : ∀ c ∈ col.values, c.isMissing = true ∨ ∃ q : Q, c = Cell.num q ∧ q.isWhole = true)
    (hmiss : ∃ c ∈ col.values, c.isMissing = true) :
    (autoCast T).map Column.name = T.map Column.name ∧
    autoCastColumn col ∈ autoCast T ∧
    (autoCastColumn col).dtype = Dtype.float64 := by
  refine ⟨autoCast_names T, List.mem_map_of_mem _ hmem, ?_⟩
  have hnotdt : ¬ col.dtype = Dtype.datetime64 := by
    rw [hdtype]
    intro h
    cases h
  have hallnum : colAllNum col.values = true := by
    unfold colAllNum
    rw [List.all_eq_true]
    intro c hc
    rcases hcells c hc with hm | ⟨q, rfl, _⟩
    · simp [hm]
    · simp [Cell.asNum]
  have hanymiss : colAnyMissing col.values = true := by
    unfold colAnyMissing
    rw [List.any_eq_true]
    obtain ⟨c, hc, hm⟩ := hmiss
    exact ⟨c, hc, hm⟩
  have hcast :
      autoCastColumn col = ⟨col.name, numericDtype col.values, col.values.map castNumCell⟩ := by
    unfold autoCastColumn
    rw [if_neg hnotdt, if_pos hallnum]
  rw [hcast]
  show numericDtype col.values = Dtype.float64
  unfold numericDtype
  rw [if_pos hanymiss]

/-- Witness for C4 at the dirty "int" column of `_get_dirty_dataframe`. -/
theorem auto_cast_missing_handling_witness :
    (autoCast [dirtyIntColumn]).map Column.name = [dirtyIntColumn].map Column.name ∧
    autoCastColumn dirtyIntColumn ∈ autoCast [dirtyIntColumn] ∧
    (autoCastColumn dirtyIntColumn).dtype = Dtype.float64 :=
  auto_cast_missing_handling [dirtyIntColumn] dirtyIntColumn (by decide) (by decide)
    (by
      intro c hc
      simp only [dirtyIntColumn, iCell, List.mem_cons, List.not_mem_nil, or_false] at hc
      rcases hc with rfl | rfl | rfl | rfl | rfl
      · exact Or.inr ⟨_, rfl, by decide⟩
      · exact Or.inr ⟨_, rfl, by decide⟩
      · exact Or.inl rfl
      · exact Or.inr ⟨_, rfl, by decide⟩
      · exact Or.inr ⟨_, rfl, by decide⟩)
    ⟨Cell.null, by decide, rfl⟩

/-- Claim C10: a column stored with a floating-point dtype whose values
are all whole numbers with no missing value is downcast by `_auto_cast` to
the integer dtype. -/
theorem auto_cast_whole_float_downcast (col : Column)
    (hdtype : col.dtype = Dtype.float64)
    (hcells : ∀ c ∈ col.values, ∃ q : Q, c = Cell.num q ∧ q.isWhole = true) :
    (autoCastColumn col).dtype = Dtype.int64 := by
  have hnotdt : ¬ col.dtype = Dtype.datetime64 := by
    rw [hdtype]
    intro h
    cases h
  have hallnum : colAllNum col.values = true := by
    unfold colAllNum
    rw [List.all_eq_true]
    intro c hc
    obtain ⟨q, rfl, _⟩ := hcells c hc
    simp [Cell.asNum]
  have hnomiss : ¬ colAnyMissing col.values = true := by
    unfold colAnyMissing
    rw [List.any_eq_true]
    rintro ⟨c, hc, hm⟩
    obtain ⟨q, rfl, _⟩ := hcells c hc
    simp [Cell.isMissing] at hm
  have hwhole : colAllWhole col.values = true := by
    unfold colAllWhole
    rw [List.all_eq_true]
    intro c hc
    obtain ⟨q, rfl, hw⟩ := hcells c hc
    simp [Cell.asNum, Cell.isMissing, hw]
  have hcast :
      autoCastColumn col = ⟨col.name, numericDtype col.values, col.values.map castNumCell⟩ := by
    unfold autoCastColumn
    rw [if_neg hnotdt, if_pos hallnum]
  rw [hcast]
  show numericDtype col.values = Dtype.int64
  unfold numericDtype
  rw [if_neg hnomiss, if_pos hwhole]

/-- Witness for C10 at the clean "int" column, which is stored as float
but holds whole values. -/
theorem auto_cast_whole_float_downcast_witness :
    (autoCastColumn intColumn).dtype = Dtype.int64 :=
  auto_cast_whole_float_downcast intColumn (by decide)
    (by
      intro c hc
      simp only [intColumn, iCell, List.mem_cons, List.not_mem_nil, or_false] at hc
      rcases hc with rfl | rfl | rfl | rfl | rfl <;> exact ⟨_, rfl, by decide⟩)

/-- Claim C6: fitting the clean 6-column table with threshold 4, a scalar
numeric transformer and a 2-component high-cardinality encoder yields
exactly three groups — "numeric" with the two numeric columns,
"low_card_cat" with the two low-cardinality columns, and "high_card_cat"
with the two high-cardinality columns. -/
theorem transformers_threshold_scenario :
    ((TableVectorizer.make cfgBase).fitTransform cleanDataFrame).1.transformers =
      Except.ok
        [("numeric", TransformerChoice.scaler, ["int", "float"]),
         ("low_card_cat", TransformerChoice.oneHot, ["str1", "cat1"]),
         ("high_card_cat", TransformerChoice.gapEncoder 2, ["str2", "cat2"])] := by
  decide

/-- Claim C7: under the default configuration (threshold above every
column's cardinality, no numerical transformer) the same table yields a
single "low_card_cat" group holding all four categorical columns and no
"numeric" group. -/
theorem transformers_default_scenario :
    ((TableVectorizer.make defaultConfig).fitTransform cleanDataFrame).1.transformers =
      Except.ok [("low_card_cat", TransformerChoice.oneHot, ["str1", "str2", "cat1", "cat2"])] := by
  decide

/-- Claim C8: after fitting the clean table with the default one-hot
low-cardinality encoder and the passthrough remainder policy,
`get_feature_names` returns one "{column}_{value}" name per observed
distinct value — columns in groupwise order, values sorted within each
column — followed by the remainder columns, and its length equals the
transformed matrix's column count. -/
theorem feature_names_scenario :
    ((TableVectorizer.make cfgPassthrough).fit cleanDataFrame).getFeatureNames =
        Except.ok expectedFeatureNames ∧
      exceptWidth
          (((TableVectorizer.make cfgPassthrough).fit cleanDataFrame).transform cleanDataFrame) =
        expectedFeatureNames.length := by
  constructor
  · decide
  · decide

/-- Claim C1: the Cardinality Classifier counts distinct non-missing
values — the distinct list is duplicate-free and contains exactly the
non-missing values — and routes a categorical-string column to the
low-cardinality group exactly when its count is at most the threshold
(inclusive boundary) and to the high-cardinality group exactly when the
count exceeds it; a column whose count equals the threshold lands in the
low-cardinality group. -/
theorem cardinality_classifier_routing (thr : Nat) (T : Table) (col : Column)
    (hmem : col ∈ T) (hobj : col.dtype = Dtype.object) :
    (distinctsNM col.values).Nodup ∧
    (∀ c, c ∈ distinctsNM col.values ↔ c ∈ col.values ∧ c.isMissing = false) ∧
    cardinality col = (distinctsNM col.values).length ∧
    (col ∈ lowCardColumns thr T ↔ cardinality col ≤ thr) ∧
    (col ∈ highCardColumns thr T ↔ thr < cardinality col) ∧
    (cardinality col = thr → col ∈ lowCardColumns thr T) := by
  have hlow : col ∈ lowCardColumns thr T ↔ cardinality col ≤ thr := by
    simp [lowCardColumns, List.mem_filter, hmem, hobj]
  refine ⟨List.nodup_dedup _, ?_, rfl, hlow, ?_, ?_⟩
  · intro c
    simp [distinctsNM]
  · simp [highCardColumns, List.mem_filter, hmem, hobj]
  · intro h
    exact hlow.mpr (le_of_eq h)

/-- Witness for C1 at the boundary: "str1" has two distinct values and is
low-cardinality under threshold 2. -/
theorem cardinality_classifier_routing_witness :
    cardinality str1Column = 2 ∧ str1Column ∈ lowCardColumns 2 cleanDataFrame :=
  ⟨by decide,
    (cardinality_classifier_routing 2 cleanDataFrame str1Column (by decide) rfl).2.2.2.2.2
      (by decide)⟩

/-! ### Lemmas on routing -/

lemma activateGroup_cols {g : String × Option TransformerChoice × List Column}
    {x : String × TransformerChoice × List Column}
    (h : activateGroup g = some x) : x.2.2 = g.2.2 := by
  rcases g with ⟨gn, och, cols⟩
  unfold activateGroup at h
  cases och with
  | none => cases h
  | some ch =>
    simp only at h
    by_cases he : cols.isEmpty
    · rw [if_pos he] at h
      cases h
    · rw [if_neg he] at h
      rw [← Option.some.inj h]

lemma mem_activeGroups_cols {cfg : Config} {T : Table}
    {x : String × TransformerChoice × List Column} (hx : x ∈ activeGroups cfg T) :
    ∃ p : Column → Bool, x.2.2 = T.filter p := by
  unfold activeGroups at hx
  obtain ⟨a, ha, hfa⟩ := List.mem_filterMap.mp hx
  have hcols := activateGroup_cols hfa
  unfold groupSpecs at ha
  simp only [List.mem_cons, List.not_mem_nil, or_false] at ha
  rcases ha with rfl | rfl | rfl | rfl
  · exact ⟨_, by rw [hcols]; rfl⟩
  · exact ⟨_, by rw [hcols]; rfl⟩
  · exact ⟨_, by rw [hcols]; rfl⟩
  · exact ⟨_, by rw [hcols]; rfl⟩

/-- Claim C9: within every fitted group, the assigned column names appear
as a sublist of the input table's column names, so the relative order of
any two columns in a group matches their relative order in the input
table. -/
theorem group_columns_follow_input_order (cfg : Config) (X : Table) (b : Binding)
    (hb : b ∈ (fitState cfg X).bindings) :
    List.Sublist b.colNames (X.map Column.name) := by
  have hX := castTable_names cfg X
  have hb' : b ∈ fitBindings cfg (castTable cfg X) := hb
  obtain ⟨x, hx, rfl⟩ := List.mem_map.mp hb'
  obtain ⟨p, hp⟩ := mem_activeGroups_cols hx
  show List.Sublist (x.2.2.map Column.name) (X.map Column.name)
  rw [hp, ← hX]
  exact List.Sublist.map Column.name (List.filter_sublist _)

/-- Default binding of the default-configuration fit on the clean table,
used as the concrete instance for C9. -/
def wBindingDefault : Binding :=
  ((fitState defaultConfig cleanDataFrame).bindings).getD 0 ⟨"", .passthrough, [], .passthrough []⟩

/-- Witness for C9 at the low-cardinality binding of the default fit. -/
theorem group_columns_follow_input_order_witness :
    List.Sublist wBindingDefault.colNames (cleanDataFrame.map Column.name) :=
  group_columns_follow_input_order defaultConfig cleanDataFrame wBindingDefault (by decide)

/-! ### Lemmas for the fit/transform equivalence -/

lemma contains_iff_mem {l : List String} {a : String} : l.contains a = true ↔ a ∈ l := by
  simp [List.contains]

lemma selectCols_filter (T : Table) (p : Column → Bool)
    (h : (T.map Column.name).Nodup) :
    selectCols T ((T.filter p).map Column.name) = T.filter p := by
  unfold selectCols
  apply List.filter_congr
  intro c hc
  by_cases hpc : p c = true
  · rw [hpc]
    exact contains_iff_mem.mpr (List.mem_map_of_mem _ (List.mem_filter.mpr ⟨hc, hpc⟩))
  · have hpc' : p c = false := by
      cases hpcc : p c
      · rfl
      · exact absurd hpcc hpc
    rw [hpc']
    cases hct : ((T.filter p).map Column.name).contains c.name
    · rfl
    · exfalso
      obtain ⟨d, hd, hnd⟩ := List.mem_map.mp (contains_iff_mem.mp hct)
      obtain ⟨hdT, hpd⟩ := List.mem_filter.mp hd
      rw [List.inj_on_of_nodup_map h hdT hc hnd] at hpd
      exact hpc hpd

lemma bindingTransform_mkBinding (cfg : Config) (T : Table)
    (x : String × TransformerChoice × List Column) :
    bindingTransform cfg T (mkBinding cfg x) =
      tTransform (tFit x.2.1 (prepare cfg x.2.1 x.2.2))
        (prepare cfg x.2.1 (selectCols T (x.2.2.map Column.name))) := rfl

lemma fit_bindings_transform (cfg : Config) (T : Table)
    (hT : (T.map Column.name).Nodup) :
    (fitBindings cfg T).map (bindingTransform cfg T) =
      (activeGroups cfg T).map (groupFitTransform cfg) := by
  unfold fitBindings
  rw [List.map_map]
  apply List.map_congr_left
  intro x hx
  obtain ⟨p, hp⟩ := mem_activeGroups_cols hx
  show bindingTransform cfg T (mkBinding cfg x) = groupFitTransform cfg x
  unfold groupFitTransform
  rw [bindingTransform_mkBinding, hp, selectCols_filter T p hT]

lemma fitTransformRaw_eq (cfg : Config) (X : Table)
    (h : (X.map Column.name).Nodup) :
    fitTransformRaw cfg X = (fitState cfg X, transformWith cfg (fitState cfg X) X) := by
  have hT : ((castTable cfg X).map Column.name).Nodup := by
    rw [castTable_names]
    exact h
  apply Prod.ext_iff.mpr
  refine ⟨rfl, ?_⟩
  show ((activeGroups cfg (castTable cfg X)).map (groupFitTransform cfg)).flatten ++ _ =
    transformWith cfg (fitState cfg X) X
  unfold transformWith
  simp only [fitState]
  rw [fit_bindings_transform cfg (castTable cfg X) hT]

/-- Claim C2: for every configuration and every input table with distinct
column names, `fit_transform` is observably equivalent to `fit` followed by
`transform` — the fitted vectorizer is identical, and the output feature
matrix is equal cell for cell (the embedding computes with exact rationals,
so no floating-point rounding arises). -/
theorem fit_transform_equivalence (tv : TableVectorizer) (X : Table)
    (h : (X.map Column.name).Nodup) :
    (tv.fitTransform X).1 = tv.fit X ∧
    (tv.fit X).transform X = Except.ok (tv.fitTransform X).2 := by
  have hcore := fitTransformRaw_eq tv.config X h
  constructor
  · show (⟨tv.config, some (fitTransformRaw tv.config X).1⟩ : TableVectorizer) = tv.fit X
    rw [hcore]
    rfl
  · show Except.ok (transformWith tv.config (fitState tv.config X) X) =
      Except.ok (fitTransformRaw tv.config X).2
    rw [hcore]

/-- Witness for C2: the default configuration on the clean table. -/
theorem fit_transform_equivalence_witness :
    ((TableVectorizer.make defaultConfig).fitTransform cleanDataFrame).1 =
        (TableVectorizer.make defaultConfig).fit cleanDataFrame ∧
      ((TableVectorizer.make defaultConfig).fit cleanDataFrame).transform cleanDataFrame =
        Except.ok ((TableVectorizer.make defaultConfig).fitTransform cleanDataFrame).2 :=
  fit_transform_equivalence (TableVectorizer.make defaultConfig) cleanDataFrame (by decide)

/-! ### Lemmas on the string parsers -/

lemma splitOnChar_ne_nil (sep : Char) (cs : List Char) : splitOnChar sep cs ≠ [] := by
  induction cs with
  | nil => simp [splitOnChar]
  | cons c rest ih =>
    simp only [splitOnChar]
    by_cases hc : c = sep
    · rw [if_pos hc]
      simp
    · rw [if_neg hc]
      cases hs : splitOnChar sep rest
      · simp
      · simp

lemma sep_mem_of_splitOnChar_length (sep : Char) (cs : List Char)
    (h : 2 ≤ (splitOnChar sep cs).length) : sep ∈ cs := by
  induction cs with
  | nil =>
    exfalso
    simp [splitOnChar] at h
  | cons c rest ih =>
    by_cases hc : c = sep
    · rw [hc]
      exact List.mem_cons_self _ _
    · apply List.mem_cons_of_mem
      apply ih
      rw [show splitOnChar sep (c :: rest) =
          (match splitOnChar sep rest with
           | [] => [[c]]
           | g :: gs => (c :: g) :: gs) from by
        simp only [splitOnChar]
        rw [if_neg hc]] at h
      cases hs : splitOnChar sep rest with
      | nil => exact absurd hs (splitOnChar_ne_nil sep rest)
      | cons g gs =>
        rw [hs] at h
        simp only [List.length_cons] at h ⊢
        omega

lemma mem_group_of_splitOnChar {sep c : Char} {cs : List Char}
    (hc : c ∈ cs) (hne : ¬ c = sep) :
    ∃ g, g ∈ splitOnChar sep cs ∧ c ∈ g := by
  induction cs with
  | nil => cases hc
  | cons x rest ih =>
    rcases List.mem_cons.mp hc with h1 | h1
    · have hx : ¬ x = sep := by
        rw [← h1]
        exact hne
      simp only [splitOnChar]
      rw [if_neg hx]
      cases hs : splitOnChar sep rest with
      | nil =>
        exact ⟨[x], List.mem_singleton.mpr rfl, by rw [h1]; exact List.mem_singleton.mpr rfl⟩
      | cons g gs =>
        exact ⟨x :: g, List.mem_cons_self _ _, by rw [h1]; exact List.mem_cons_self _ _⟩
    · obtain ⟨g', hg', hcg'⟩ := ih h1
      by_cases hx : x = sep
      · refine ⟨g', ?_, hcg'⟩
        simp only [splitOnChar]
        rw [if_pos hx]
        exact List.mem_cons_of_mem _ hg'
      · simp only [splitOnChar]
        rw [if_neg hx]
        cases hs : splitOnChar sep rest with
        | nil => exact absurd hs (splitOnChar_ne_nil sep rest)
        | cons g gs =>
          rw [hs] at hg'
          rcases List.mem_cons.mp hg' with h2 | h2
          · exact ⟨x :: g, List.mem_cons_self _ _, List.mem_cons_of_mem x (h2 ▸ hcg')⟩
          · exact ⟨g', List.mem_cons_of_mem _ h2, hcg'⟩

lemma parseDigits_sound {cs : List Char} {n : Nat} (h : parseDigits cs = some n) :
    cs ≠ [] ∧ ∀ c ∈ cs, c.isDigit = true := by
  unfold parseDigits at h
  by_cases hcond : (!cs.isEmpty && cs.all Char.isDigit) = true
  · obtain ⟨h1, h2⟩ := Bool.and_eq_true_iff.mp hcond
    refine ⟨?_, fun c hc => List.all_eq_true.mp h2 c hc⟩
    intro hnil
    rw [hnil] at h1
    simp at h1
  · rw [if_neg hcond] at h
    cases h

lemma parseUnsigned_chars {cs : List Char} {q : Q} (h : parseUnsigned cs = some q) :
    ∀ c ∈ cs, c.isDigit = true ∨ c = '.' := by
  intro c hc
  by_cases hdot : c = '.'
  · exact Or.inr hdot
  · left
    obtain ⟨g, hg, hcg⟩ := mem_group_of_splitOnChar hc hdot
    unfold parseUnsigned at h
    split at h
    · next ds heq =>
      rw [heq] at hg
      have hgds : g = ds := List.mem_singleton.mp hg
      cases hpd : parseDigits ds with
      | none =>
        rw [hpd] at h
        simp at h
      | some m =>
        exact (parseDigits_sound hpd).2 c (hgds ▸ hcg)
    · next ds fs heq =>
      rw [heq] at hg
      split at h
      · next i f hi hf =>
        rcases List.mem_cons.mp hg with h2 | h2
        · exact (parseDigits_sound hi).2 c (h2 ▸ hcg)
        · have hgfs : g = fs := List.mem_singleton.mp h2
          exact (parseDigits_sound hf).2 c (hgfs ▸ hcg)
      · cases h
    · cases h

lemma parseYMD_digits {ys ms ds : List Char} {t : Int} (h : parseYMD ys ms ds = some t) :
    (∃ y, parseDigits ys = some y) ∧ (∃ m, parseDigits ms = some m) ∧
      (∃ d, parseDigits ds = some d) := by
  unfold parseYMD at h
  split at h
  · next y m d hy hm hd => exact ⟨⟨y, hy⟩, ⟨m, hm⟩, ⟨d, hd⟩⟩
  · cases h

lemma parseUnsigned_none_of_sep {cs : List Char} {sep : Char}
    (hmem : sep ∈ cs) (hdig : sep.isDigit = false) (hdot : ¬ sep = '.') :
    parseUnsigned cs = none := by
  cases hpu : parseUnsigned cs with
  | none => rfl
  | some q =>
    exfalso
    rcases parseUnsigned_chars hpu sep hmem with h1 | h1
    · rw [h1] at hdig
      cases hdig
    · exact hdot h1

lemma parseNumStr_none_of_sep {s : String} {sep : Char}
    (hmem : sep ∈ s.data) (hdig : sep.isDigit = false) (hdot : ¬ sep = '.')
    (hdash : ¬ sep = '-') :
    parseNumStr s = none := by
  rcases hd : s.data with _ | ⟨c, rest⟩
  · rw [hd] at hmem
    cases hmem
  · rw [hd] at hmem
    by_cases hc : c = '-'
    · have hmem' : sep ∈ rest := by
        rcases List.mem_cons.mp hmem with h1 | h1
        · exact absurd (h1.trans hc) hdash
        · exact h1
      simp only [parseNumStr, hd, if_pos hc]
      rw [parseUnsigned_none_of_sep hmem' hdig hdot]
      rfl
    · simp only [parseNumStr, hd, if_neg hc]
      exact parseUnsigned_none_of_sep hmem hdig hdot

lemma parseNumStr_none_dash {s : String}
    (hmem : ('-' : Char) ∈ s.data) (hhead : ∀ rest, s.data ≠ '-' :: rest) :
    parseNumStr s = none := by
  rcases hd : s.data with _ | ⟨c, rest⟩
  · rw [hd] at hmem
    cases hmem
  · have hc : ¬ c = '-' := by
      intro hcc
      exact hhead rest (by rw [hd, hcc])
    rw [hd] at hmem
    simp only [parseNumStr, hd, if_neg hc]
    exact parseUnsigned_none_of_sep hmem (by decide) (by decide)

lemma dashFormat_head {s : String} {a b c : List Char}
    (heq : splitOnChar '-' s.data = [a, b, c]) (hane : a ≠ []) :
    ∀ rest, s.data ≠ '-' :: rest := by
  intro rest hcontra
  rw [hcontra] at heq
  have hsplit : splitOnChar '-' ('-' :: rest) = [] :: splitOnChar '-' rest := by
    simp [splitOnChar]
  rw [hsplit] at heq
  injection heq with h1 _
  exact hane h1.symm

/-- A string that parses under any datetime format family never parses as
a numeric literal: the two detection steps of the Type Inspector are
mutually exclusive on any single value. -/
lemma dt_num_disjoint (f : DtFormat) (s : String)
    (h : (parseDateWith f s).isSome = true) : parseNumStr s = none := by
  cases f with
  | ymdDash =>
    simp only [parseDateWith] at h
    split at h
    · next ys ms ds heq =>
      obtain ⟨t, ht⟩ := Option.isSome_iff_exists.mp h
      obtain ⟨⟨y, hy⟩, _, _⟩ := parseYMD_digits ht
      have hysne : ys ≠ [] := (parseDigits_sound hy).1
      have hmem : ('-' : Char) ∈ s.data :=
        sep_mem_of_splitOnChar_length '-' s.data (by rw [heq]; simp)
      exact parseNumStr_none_dash hmem (dashFormat_head heq hysne)
    · cases h
  | dmyDash =>
    simp only [parseDateWith] at h
    split at h
    · next ds ms ys heq =>
      obtain ⟨t, ht⟩ := Option.isSome_iff_exists.mp h
      obtain ⟨_, _, ⟨d, hdd⟩⟩ := parseYMD_digits ht
      have hdsne : ds ≠ [] := (parseDigits_sound hdd).1
      have hmem : ('-' : Char) ∈ s.data :=
        sep_mem_of_splitOnChar_length '-' s.data (by rw [heq]; simp)
      exact parseNumStr_none_dash hmem (dashFormat_head heq hdsne)
    · cases h
  | ymdSlash =>
    simp only [parseDateWith] at h
    split at h
    · next ys ms ds heq =>
      have hmem : ('/' : Char) ∈ s.data :=
        sep_mem_of_splitOnChar_length '/' s.data (by rw [heq]; simp)
      exact parseNumStr_none_of_sep hmem (by decide) (by decide) (by decide)
    · cases h
  | ymdSlashTime =>
    simp only [parseDateWith] at h
    split at h
    · next dp tp heq =>
      have hmem : (' ' : Char) ∈ s.data :=
        sep_mem_of_splitOnChar_length ' ' s.data (by rw [heq]; simp)
      exact parseNumStr_none_of_sep hmem (by decide) (by decide) (by decide)
    · cases h

/-- Claim C5: a column of strings whose non-missing values all parse under
one of the prioritized datetime format families is cast by `_auto_cast` to
the datetime storage type, and a column already holding native timestamp
values is accepted as datetime without re-parsing — it is returned
unchanged and keeps its datetime dtype. -/
theorem auto_cast_datetime_detection (col : Column) :
    ((∃ c ∈ col.values, c.isMissing = false) →
      (∃ f ∈ dtFormats, ∀ c ∈ col.values, cellParses f c = true) →
      (autoCastColumn col).dtype = Dtype.datetime64) ∧
    (col.dtype = Dtype.datetime64 → autoCastColumn col = col) := by
  have hnative : col.dtype = Dtype.datetime64 → autoCastColumn col = col := by
    intro h
    unfold autoCastColumn
    rw [if_pos h]
  refine ⟨?_, hnative⟩
  intro h1 h2
  by_cases hdt : col.dtype = Dtype.datetime64
  · rw [hnative hdt]
    exact hdt
  · obtain ⟨c₀, hc₀, hm₀⟩ := h1
    obtain ⟨f, hf, hall⟩ := h2
    have hp := hall c₀ hc₀
    -- the witnessing non-missing value must be a date-parsing string
    obtain ⟨s, hs, hpsome⟩ : ∃ s, c₀ = Cell.str s ∧ (parseDateWith f s).isSome = true := by
      cases c₀ with
      | null => simp [Cell.isMissing] at hm₀
      | nan => simp [Cell.isMissing] at hm₀
      | noneMark => simp [Cell.isMissing] at hm₀
      | emptyMark => simp [Cell.isMissing] at hm₀
      | num q => simp [cellParses, Cell.isMissing] at hp
      | timestamp t => simp [cellParses, Cell.isMissing] at hp
      | str s =>
        refine ⟨s, rfl, ?_⟩
        simpa [cellParses, Cell.isMissing] using hp
    have hnotall : ¬ colAllNum col.values = true := by
      intro hallnum
      have hpred := List.all_eq_true.mp hallnum c₀ hc₀
      rw [hs] at hpred
      simp only [Cell.isMissing, Cell.asNum, Bool.false_or] at hpred
      rw [dt_num_disjoint f s hpsome] at hpred
      simp at hpred
    have hany : (col.values.any fun c => !c.isMissing) = true := by
      rw [List.any_eq_true]
      exact ⟨c₀, hc₀, by rw [hm₀]; rfl⟩
    have hdetect : (detectFormat col.values).isSome = true := by
      unfold detectFormat
      rw [if_pos hany, List.find?_isSome]
      exact ⟨f, hf, List.all_eq_true.mpr hall⟩
    obtain ⟨f', hf'⟩ := Option.isSome_iff_exists.mp hdetect
    have hcast :
        autoCastColumn col = ⟨col.name, Dtype.datetime64, col.values.map (castDtCell f')⟩ := by
      unfold autoCastColumn
      rw [if_neg hdt, if_neg hnotall, hf']
    rw [hcast]

/-- Witness for C5: the day-month-year string column is detected as
datetime, and the native-timestamp column is kept as is. -/
theorem auto_cast_datetime_detection_witness :
    (autoCastColumn dmyColumn).dtype = Dtype.datetime64 ∧
    autoCastColumn nativeDtColumn = nativeDtColumn :=
  ⟨(auto_cast_datetime_detection dmyColumn).1 ⟨sCell "11-12-2029", by decide, rfl⟩
      ⟨DtFormat.dmyDash, by decide, by decide⟩,
   (auto_cast_datetime_detection nativeDtColumn).2 rfl⟩

end CuCat
